import Mathlib

/-!
Verification of the Prism document-QA core: a shallow embedding of
`backend/ingestion/chunker.py` (DocumentChunker), the lexical retriever and
document store of `backend/app/services/qa_service.py` (DocumentQAService),
and the ingestion background task of `backend/app/main.py`.

Python strings are modelled as `List Char`; Python `int` counters as `Nat`.
The tiktoken tokenizer is external to the repository, so the chunker is
parameterised by an abstract `Tokenizer` (an `encode`/`decode` pair over an
arbitrary token type), exactly the interface the source uses.  The model
follows the exact-tokenizer path (`self.tokenizer` present); the approximate
word-count fallback multiplies by the float 1.33 and is outside the model.
-/

namespace Prism

/-- Python `str` modelled as a list of characters. -/
abbrev Str := List Char

/-- Convenience: build a modelled string from a Lean string literal. -/
def strL (s : String) : Str := s.data

/-- The six ASCII whitespace characters of Python's `str.split`/`str.strip`/`\s`. -/
def isPySpace (c : Char) : Bool :=
  c = ' ' || c = '\t' || c = '\n' || c = '\r' || c = '\x0b' || c = '\x0c'

/-- Terminal sentence punctuation of `_split_into_sentences` (`[.!?]`). -/
def isSentTerm (c : Char) : Bool :=
  c = '.' || c = '!' || c = '?'

/-- Python `\w` for ASCII input: letters, digits, underscore. -/
def isWordChar (c : Char) : Bool :=
  c.isAlphanum || c = '_'

/-- The punctuation allow-list of `_clean_text`: `.,!?-()[]"':`. -/
def isAllowedPunct (c : Char) : Bool :=
  c = '.' || c = ',' || c = '!' || c = '?' || c = '-' || c = '(' || c = ')' ||
    c = '[' || c = ']' || c = '"' || c = '\'' || c = ':'

/-- Drop trailing Python whitespace. -/
def dropTrailingWs (l : Str) : Str :=
  (l.reverse.dropWhile isPySpace).reverse

/-- Python `str.strip()`. -/
def pyStrip (l : Str) : Str :=
  dropTrailingWs (l.dropWhile isPySpace)

/-- Worker for `pyWords`: `acc` is the reversed current word. -/
def wordsAux : List Char → List Char → List Str
  | [], acc => if acc = [] then [] else [acc.reverse]
  | c :: cs, acc =>
    if isPySpace c then
      if acc = [] then wordsAux cs [] else acc.reverse :: wordsAux cs []
    else wordsAux cs (c :: acc)

/-- Python `str.split()` (no argument): whitespace-run splitting, no empties. -/
def pyWords (l : Str) : List Str :=
  wordsAux l []

/-- Python's substring test `needle in hay` for strings. -/
def isSubstrOf (needle : Str) : Str → Bool
  | [] => needle.isEmpty
  | c :: t => needle.isPrefixOf (c :: t) || isSubstrOf needle t

/-- Python `str.lower()` (ASCII). -/
def lowerStr (l : Str) : Str :=
  l.map Char.toLower

/-- Python `lst[-k:]`: for `k = 0` the slice is the whole list. -/
def pySliceLastK {α : Type} (l : List α) (k : Nat) : List α :=
  if k = 0 then l else l.drop (l.length - k)

/-! ## Tokenizer adapter

The source obtains `self.tokenizer` from tiktoken (external library) and uses
only `encode` and `decode` on it. -/

/-- An exact tokenizer: `encode`/`decode` over an arbitrary token type. -/
structure Tokenizer (τ : Type) where
  encode : Str → List τ
  decode : List τ → Str

/-- `DocumentChunker.count_tokens`, exact path: `len(self.tokenizer.encode(text))`. -/
def count_tokens {τ : Type} (tk : Tokenizer τ) (text : Str) : Nat :=
  (tk.encode text).length

/-- A concrete tokenizer: every character is one token. -/
def charTok : Tokenizer Char :=
  ⟨fun s => s, fun l => l⟩

/-- Join words with single spaces (decode direction of `wordTok`). -/
def joinWords : List Str → Str
  | [] => []
  | [w] => w
  | w :: ws => w ++ ' ' :: joinWords ws

/-- A concrete tokenizer: every whitespace-delimited word is one token. -/
def wordTok : Tokenizer Str :=
  ⟨pyWords, joinWords⟩

/-! ## Chunker (`backend/ingestion/chunker.py`) -/

/-- Constructor arguments of `DocumentChunker` (`chunk_size`, `chunk_overlap`). -/
structure ChunkerCfg where
  chunk_size : Nat
  chunk_overlap : Nat
deriving DecidableEq, Repr

/-- The chunk dictionaries built by `chunk_text`; `chunk_document_pages`
adds the `page`/`source_page` keys afterwards (`none` = key absent). -/
structure Chunk where
  file_id : Nat
  chunk_id : Nat
  text : Str
  token_count : Nat
  page : Option Nat := none
  source_page : Option Nat := none
deriving DecidableEq, Repr

/-- `_clean_text`: collapse whitespace runs to one space, replace characters
outside the allow-list by a space, then strip. -/
def collapseWsAux : List Char → Bool → List Char
  | [], _ => []
  | c :: cs, prevWs =>
    if isPySpace c then
      if prevWs then collapseWsAux cs true else ' ' :: collapseWsAux cs true
    else c :: collapseWsAux cs false

def _clean_text (text : Str) : Str :=
  let t1 := collapseWsAux text false
  let t2 := t1.map fun c => if isWordChar c || isPySpace c || isAllowedPunct c then c else ' '
  pyStrip t2

/-- Worker for `_split_into_sentences`: scans for the regex `[.!?]+\s+`.
`pend` holds a reversed run of pending terminal punctuation, `acc` the
reversed current piece, `skip` consumes the whitespace run of a separator. -/
def splitSentAux : List Char → List Char → List Char → Bool → List Str
  | [], pend, acc, _ => [(pend ++ acc).reverse]
  | c :: rest, pend, acc, skip =>
    if skip && isPySpace c then splitSentAux rest pend acc true
    else if isSentTerm c then splitSentAux rest (c :: pend) acc false
    else if isPySpace c then
      if pend = [] then splitSentAux rest [] (c :: acc) false
      else acc.reverse :: splitSentAux rest [] [] true
    else splitSentAux rest [] (c :: (pend ++ acc)) false

/-- `_split_into_sentences`: `re.split(r'[.!?]+\s+', text)`, each piece
stripped, empty pieces discarded. -/
def _split_into_sentences (text : Str) : List Str :=
  ((splitSentAux text [] [] false).map pyStrip).filter fun s => !s.isEmpty

/-- `_get_overlap_text`, exact-tokenizer path: whole text when it has at most
`max_tokens` tokens, else `decode(tokens[-max_tokens:])`. -/
def _get_overlap_text {τ : Type} (tk : Tokenizer τ) (text : Str) (max_tokens : Nat) : Str :=
  let tokens := tk.encode text
  if tokens.length ≤ max_tokens then text
  else tk.decode (pySliceLastK tokens max_tokens)

/-- The loop state of `chunk_text`. -/
structure ChunkAcc where
  chunks : List Chunk
  current_chunk : Str
  current_tokens : Nat
  chunk_id : Nat
deriving DecidableEq, Repr

/-- One iteration of the sentence loop of `chunk_text` (lines 70-90). -/
def chunkStep {τ : Type} (tk : Tokenizer τ) (cfg : ChunkerCfg) (fid : Nat)
    (st : ChunkAcc) (sentence : Str) : ChunkAcc :=
  let sentence_tokens := count_tokens tk sentence
  if cfg.chunk_size < st.current_tokens + sentence_tokens ∧ st.current_chunk ≠ [] then
    let closed : Chunk :=
      { file_id := fid, chunk_id := st.chunk_id,
        text := pyStrip st.current_chunk, token_count := st.current_tokens }
    let overlap_text := _get_overlap_text tk st.current_chunk cfg.chunk_overlap
    let new_current := overlap_text ++ ' ' :: sentence
    { chunks := st.chunks ++ [closed],
      current_chunk := new_current,
      current_tokens := count_tokens tk new_current,
      chunk_id := st.chunk_id + 1 }
  else
    { st with
      current_chunk :=
        if st.current_chunk ≠ [] then st.current_chunk ++ ' ' :: sentence else sentence,
      current_tokens := st.current_tokens + sentence_tokens }

def chunkLoop {τ : Type} (tk : Tokenizer τ) (cfg : ChunkerCfg) (fid : Nat) :
    List Str → ChunkAcc → ChunkAcc
  | [], st => st
  | s :: rest, st => chunkLoop tk cfg fid rest (chunkStep tk cfg fid st s)

/-- `DocumentChunker.chunk_text` (lines 48-101). -/
def chunk_text {τ : Type} (tk : Tokenizer τ) (cfg : ChunkerCfg) (text : Str) (fid : Nat) :
    List Chunk :=
  let cleaned := _clean_text text
  let sentences := _split_into_sentences cleaned
  let st := chunkLoop tk cfg fid sentences ⟨[], [], 0, 0⟩
  if pyStrip st.current_chunk ≠ [] then
    st.chunks ++
      [{ file_id := fid, chunk_id := st.chunk_id,
         text := pyStrip st.current_chunk, token_count := st.current_tokens }]
  else st.chunks

/-- A page record from `parse_pdf.py`: `{"file_id": ..., "page": ..., "text": ...}`. -/
structure Page where
  file_id : Nat
  page : Nat
  text : Str
deriving DecidableEq, Repr

/-- `DocumentChunker.chunk_document_pages` (lines 132-174): chunk each page with
`chunk_text` and add the `page`/`source_page` keys.  Progress reporting is
advisory instrumentation with no effect on the returned chunks. -/
def chunk_document_pages {τ : Type} (tk : Tokenizer τ) (cfg : ChunkerCfg)
    (pages : List Page) : List Chunk :=
  (pages.map fun p =>
    (chunk_text tk cfg p.text p.file_id).map fun c =>
      { c with page := some p.page, source_page := some p.page }).flatten

/-! ## Relevance retriever (`qa_service.py`, `_find_relevant_chunks`, lines 151-194) -/

/-- `set(question.lower().split())`: the distinct lowercase query keywords.
Iteration order over a Python set is irrelevant here because the set is only
used for counting. -/
def question_keywords (question : Str) : List Str :=
  (pyWords (lowerStr question)).dedup

/-- The score the code assigns to one chunk text (lines 173-180):
`matches` counts keywords occurring as a substring of the lowercased chunk
text, `part_matches` counts keywords occurring as a substring of some
whitespace-delimited word of it; the score is `matches * 2 + part_matches`. -/
def relevance_score (question : Str) (text : Str) : Nat :=
  let chunk_text_l := lowerStr text
  let kws := question_keywords question
  let m_count := (kws.filter fun kw => isSubstrOf kw chunk_text_l).length
  let p_count :=
    (kws.filter fun kw => (pyWords chunk_text_l).any fun w => isSubstrOf kw w).length
  m_count * 2 + p_count

/-- A chunk as returned by `_find_relevant_chunks`: the `relevance_score` key
is present (`some`) on the scored path and absent (`none`) on the fallback
path, which returns the stored chunk dictionaries unmodified. -/
structure ScoredChunk where
  chunk : Chunk
  relevance_score : Option Nat
deriving DecidableEq, Repr

/-- The in-memory store `self.document_chunks`: a Python dict, i.e. an
insertion-ordered association list keyed by `file_id`. -/
abbrev ChunkDict := List (Str × List Chunk)

/-- Association-list lookup (Python `d[k]` / `k in d`). -/
def dictGet {α : Type} (d : List (Str × α)) (k : Str) : Option α :=
  match d with
  | [] => none
  | (k', v) :: rest => if k' = k then some v else dictGet rest k

/-- Python dict assignment `d[k] = v`: replaces in place, preserving the
original insertion position of an existing key. -/
def dictSet {α : Type} (d : List (Str × α)) (k : Str) (v : α) : List (Str × α) :=
  match d with
  | [] => [(k, v)]
  | (k', v') :: rest => if k' = k then (k, v) :: rest else (k', v') :: dictSet rest k v

/-- Candidate selection (lines 156-163): the scoped document's chunks when
`file_id` is truthy *and* present; otherwise the concatenation of all
documents' chunk lists in insertion order. -/
def candidatesOf (dc : ChunkDict) : Option Str → List Chunk
  | some f =>
    if f ≠ [] then
      match dictGet dc f with
      | some cs => cs
      | none => (dc.map Prod.snd).flatten
    else (dc.map Prod.snd).flatten
  | none => (dc.map Prod.snd).flatten

/-- The scored copies (lines 171-184): each candidate paired with its score. -/
def scoredOf (question : Str) (chunks : List Chunk) : List (Chunk × Nat) :=
  chunks.map fun c => (c, relevance_score question c.text)

/-- `scored_chunks.sort(key=lambda x: x["relevance_score"], reverse=True)`:
a stable descending sort by score, modelled by insertion sort with the
relation "may stay in front", which is the unique stable result. -/
def sortedScoredOf (question : Str) (chunks : List Chunk) : List (Chunk × Nat) :=
  List.insertionSort (fun a b => b.2 ≤ a.2) (scoredOf question chunks)

/-- `DocumentQAService._find_relevant_chunks` (lines 151-194). -/
def _find_relevant_chunks (question : Str) (file_id : Option Str) (max_chunks : Nat)
    (dc : ChunkDict) : List ScoredChunk :=
  let all_chunks := candidatesOf dc file_id
  if all_chunks = [] then []
  else
    let sorted := sortedScoredOf question all_chunks
    if ((sorted.take max_chunks).any fun sc => decide (0 < sc.2)) = false then
      (all_chunks.take max_chunks).map fun c => ⟨c, none⟩
    else
      (sorted.take max_chunks).map fun sc => ⟨sc.1, some sc.2⟩

/-! ## Document store and ingestion (`qa_service.py`, `process_document`, lines 45-97) -/

/-- The metadata record built for `self.document_metadata[file_id]`. -/
structure DocMetadata where
  file_name : Str
  file_path : Str
  num_pages : Nat
  num_chunks : Nat
  total_tokens : Nat
deriving DecidableEq, Repr

/-- The two in-memory mappings of `DocumentQAService`. -/
structure DocStore where
  document_chunks : ChunkDict
  document_metadata : List (Str × DocMetadata)
deriving DecidableEq, Repr

structure ProcessResult where
  success : Bool
  error : Option Str
deriving DecidableEq, Repr

/-- The global `document_chunker` is `DocumentChunker()` with the constructor
defaults `chunk_size=1000`, `chunk_overlap=200`. -/
def defaultCfg : ChunkerCfg := ⟨1000, 200⟩

/-- `DocumentQAService.process_document` (lines 45-97).  The two exception
sources inside the `try` block are modelled as inputs: `path_exists` (the
`FileNotFoundError` raise) and `parsed` (the external `parse_document`, which
may raise).  `_save_processed_document` catches its own exceptions and never
mutates the in-memory store, so it does not appear.  Any raise is caught by
the `except` clause, which returns `success=False` without touching the
store. -/
def process_document {τ : Type} (tk : Tokenizer τ) (store : DocStore)
    (path_exists : Bool) (file_path file_stem file_name : Str)
    (parsed : Except Str (List Page)) (file_id_arg : Option Str) :
    ProcessResult × DocStore :=
  if path_exists = false then
    (⟨false, some (strL ("File not found: ") ++ file_path)⟩, store)
  else
    let file_id :=
      match file_id_arg with
      | some f => if f = [] then file_stem else f
      | none => file_stem
    match parsed with
    | .error e => (⟨false, some e⟩, store)
    | .ok pages =>
      let chunks := chunk_document_pages tk defaultCfg pages
      let meta : DocMetadata :=
        { file_name := file_name, file_path := file_path,
          num_pages := pages.length, num_chunks := chunks.length,
          total_tokens := (chunks.map Chunk.token_count).sum }
      let store' : DocStore :=
        { document_chunks := dictSet store.document_chunks file_id chunks,
          document_metadata := dictSet store.document_metadata file_id meta }
      (⟨true, none⟩, store')

/-! ## Background ingestion task (`main.py`, `process_document_async`, lines 91-112)

The repository has no `app/services/progress_service.py` under `src/`; the
progress tracker below is modelled from the spec (§4.3): `start` puts a job
in `running`, `fail` stores the error message in the `failed` terminal state,
`complete` reaches `completed`. -/

/-- The methods defined by `class DocumentQAService` in
`backend/app/services/qa_service.py`. -/
def documentQAServiceMethods : List String :=
  ["__init__", "process_document", "answer_question", "_find_relevant_chunks",
   "_build_context", "_extract_sources", "_save_processed_document",
   "_load_existing_documents", "load_processed_document", "list_documents",
   "get_document_info"]

/-- Modelled from the spec: a progress-tracker job status (§4.3). -/
inductive ProgressStatus
  | pending
  | running (step : Nat)
  | completed
  | failed (msg : String)
deriving DecidableEq, Repr

/-- Modelled from the spec: `progress_service.start_processing`. -/
def start_processing : ProgressStatus := .running 1

/-- Modelled from the spec: `progress_service.set_error`. -/
def set_error (msg : String) (_st : ProgressStatus) : ProgressStatus := .failed msg

/-- Modelled from the spec: `progress_service.complete_processing`. -/
def complete_processing (_st : ProgressStatus) : ProgressStatus := .completed

/-- Python attribute access `obj.name(...)`: an `AttributeError` unless the
class defines the method. -/
def getattrCall (methods : List String) (name : String) : Except String Unit :=
  if name ∈ methods then .ok () else .error ("AttributeError: " ++ name)

/-- `process_document_async` (main.py lines 91-112): start progress, call
`qa_service.process_document_with_progress`, mark completed on success,
otherwise report the error; every exception of the `try` block lands in
`set_error`.  `call_success` stands for `result["success"]` should the call
ever return. -/
def process_document_async (methods : List String) (call_success : Bool) :
    ProgressStatus :=
  let st := start_processing
  match getattrCall methods ("process_document_with_progress") with
  | .ok _ =>
    if call_success then complete_processing st else set_error ("Unknown error") st
  | .error e => set_error e st

/-! ## Definitions used by claim statements -/

/-- Number of distinct query keywords occurring as a substring of the
lowercased chunk text (what the code's `matches` actually counts). -/
def sub_matches (question text : Str) : Nat :=
  ((question_keywords question).filter fun kw => isSubstrOf kw (lowerStr text)).length

/-- Number of distinct query keywords occurring as a substring of some
whitespace-delimited word of the lowercased chunk text. -/
def part_matches (question text : Str) : Nat :=
  ((question_keywords question).filter fun kw =>
    (pyWords (lowerStr text)).any fun w => isSubstrOf kw w).length

/-- Modelled from the claim's words, for comparison with the code: the number
of distinct query keywords occurring as a whole whitespace-delimited word of
the lowercased chunk text. -/
def claim_exact_matches (question text : Str) : Nat :=
  ((question_keywords question).filter fun kw =>
    (pyWords (lowerStr text)).contains kw).length

/-- Modelled from the claim's words: `2 * exact_matches + partial matches`
with whole-word exact matching. -/
def claimRelevanceScore (question text : Str) : Nat :=
  2 * claim_exact_matches question text + part_matches question text

/-- The chunk-level exception of the amended C1: the chunk is one (stripped)
input sentence, with its own token count. -/
def singleSentenceChunk {τ : Type} (tk : Tokenizer τ) (sentences : List Str) (c : Chunk) :
    Prop :=
  ∃ s ∈ sentences, c.text = pyStrip s ∧ c.token_count = count_tokens tk s

/-- The second exception of the amended C1: the chunk is an overlap extract of
some prior buffer joined with one input sentence, with the token count of that
join. -/
def seededChunk {τ : Type} (tk : Tokenizer τ) (cfg : ChunkerCfg) (sentences : List Str)
    (c : Chunk) : Prop :=
  ∃ s ∈ sentences, ∃ prev : Str,
    c.text = pyStrip (_get_overlap_text tk prev cfg.chunk_overlap ++ ' ' :: s) ∧
    c.token_count = count_tokens tk (_get_overlap_text tk prev cfg.chunk_overlap ++ ' ' :: s)

end Prism

open Prism

-- sanity checks of the embedding on concrete inputs
example : _split_into_sentences (strL ("abcdefgh. abcdefg. ab")) =
    [strL ("abcdefgh"), strL ("abcdefg"), strL ("ab")] := by decide

example : _clean_text (strL ("a   b&c")) = strL ("a b c") := by decide

example : pyWords (strL ("  ab $ cd ")) = [strL ("ab"), strL ("$"), strL ("cd")] := by decide

example : isSubstrOf (strL ("cat")) (strL ("a catalog")) = true := by decide

example : isSubstrOf (strL ("cat")) (strL ("ca tlog")) = false := by decide

example :
    chunk_text charTok ⟨10, 5⟩ (strL ("abcdefgh. abcdefg. ab")) 1 =
      [{ file_id := 1, chunk_id := 0, text := strL ("abcdefgh"), token_count := 8 },
       { file_id := 1, chunk_id := 1, text := strL ("defgh abcdefg"), token_count := 13 },
       { file_id := 1, chunk_id := 2, text := strL ("cdefg ab"), token_count := 8 }] := by
  decide

/-! ## Helper lemmas -/

/-- Every sentence produced by `_split_into_sentences` is nonempty. -/
theorem sentences_ne_nil (t : Str) : ∀ s ∈ _split_into_sentences t, s ≠ [] := by
  intro s hs
  have := (List.mem_filter.mp hs).2
  simpa [List.isEmpty_iff] using this

/-- Invariance of a predicate along the sentence loop of `chunk_text`. -/
theorem chunkLoop_invariant {τ : Type} (tk : Tokenizer τ) (cfg : ChunkerCfg) (fid : Nat)
    (P : ChunkAcc → Prop) :
    ∀ (sentences : List Str) (st : ChunkAcc),
      (∀ st' s, s ∈ sentences → P st' → P (chunkStep tk cfg fid st' s)) →
      P st → P (chunkLoop tk cfg fid sentences st) := by
  intro sentences
  induction sentences with
  | nil => intro st _ h; exact h
  | cons s rest ih =>
    intro st hstep h
    have h1 : P (chunkStep tk cfg fid st s) := hstep st s (by simp) h
    exact ih _ (fun st' s' hs' => hstep st' s' (by simp [hs'])) h1

/-- The chunk ids of the loop state stay dense from 0 and the counter tracks
the number of emitted chunks. -/
theorem chunkLoop_ids {τ : Type} (tk : Tokenizer τ) (cfg : ChunkerCfg) (fid : Nat)
    (sentences : List Str) (st : ChunkAcc)
    (h1 : st.chunks.map Chunk.chunk_id = List.range st.chunks.length)
    (h2 : st.chunk_id = st.chunks.length) :
    (chunkLoop tk cfg fid sentences st).chunks.map Chunk.chunk_id =
        List.range (chunkLoop tk cfg fid sentences st).chunks.length ∧
      (chunkLoop tk cfg fid sentences st).chunk_id =
        (chunkLoop tk cfg fid sentences st).chunks.length := by
  have := chunkLoop_invariant tk cfg fid
    (fun st => st.chunks.map Chunk.chunk_id = List.range st.chunks.length ∧
      st.chunk_id = st.chunks.length) sentences st ?_ ⟨h1, h2⟩
  · exact this
  · intro st' s _ hP
    by_cases hc : cfg.chunk_size < st'.current_tokens + count_tokens tk s ∧
      st'.current_chunk ≠ []
    · simp only [chunkStep, if_pos hc]
      refine ⟨?_, ?_⟩
      · simp [hP.1, hP.2, List.range_succ]
      · simp [hP.2]
    · simp only [chunkStep, if_neg hc]
      exact hP

/-- Per-page density: within one `chunk_text` call the chunk ids are exactly
`0, 1, 2, ...`. -/
theorem chunk_text_ids {τ : Type} (tk : Tokenizer τ) (cfg : ChunkerCfg) (text : Str)
    (fid : Nat) :
    (chunk_text tk cfg text fid).map Chunk.chunk_id =
      List.range (chunk_text tk cfg text fid).length := by
  have h := chunkLoop_ids tk cfg fid (_split_into_sentences (_clean_text text))
    ⟨[], [], 0, 0⟩ (by simp) (by simp)
  simp only [chunk_text]
  split
  · simp only [List.map_append, List.length_append, List.map_cons, List.map_nil,
      List.length_cons, List.length_nil]
    rw [h.1, h.2]
    simpa using (List.range_succ _).symm
  · exact h.1

/-! ## Claim C4 -/

/-- C4 counterexample: a two-page document in which each page yields one
chunk produces chunk ids `[0, 0]` — the numbering restarts at 0 on the second
page instead of continuing with 1, so the ids are not dense and increasing
across the whole document. -/
theorem C4_counterexample :
    (chunk_document_pages charTok ⟨10, 5⟩
        [⟨1, 0, strL ("ab")⟩, ⟨1, 1, strL ("cd")⟩]).map Chunk.chunk_id = [0, 0] ∧
    (chunk_document_pages charTok ⟨10, 5⟩
        [⟨1, 0, strL ("ab")⟩, ⟨1, 1, strL ("cd")⟩]).length = 2 ∧
    (chunk_document_pages charTok ⟨10, 5⟩
        [⟨1, 0, strL ("ab")⟩, ⟨1, 1, strL ("cd")⟩]).map Chunk.chunk_id ≠
      List.range 2 := by
  decide

/-- C4 (amended): for every document processed by `chunk_document_pages`, the
chunk ids are the concatenation of the per-page id sequences, each of which is
dense and monotonically increasing starting at 0 (increasing by 1 per chunk)
within its page; the numbering restarts at 0 on every page boundary. -/
theorem C4_theorem {τ : Type} (tk : Tokenizer τ) (cfg : ChunkerCfg) (pages : List Page) :
    (chunk_document_pages tk cfg pages).map Chunk.chunk_id =
      (pages.map fun p => List.range (chunk_text tk cfg p.text p.file_id).length).flatten := by
  induction pages with
  | nil => rfl
  | cons p ps ih =>
    have hpage :
        ((chunk_text tk cfg p.text p.file_id).map fun c =>
            { c with page := some p.page, source_page := some p.page }).map Chunk.chunk_id =
          List.range (chunk_text tk cfg p.text p.file_id).length := by
      rw [List.map_map]
      have hcomp :
          (Chunk.chunk_id ∘ fun c : Chunk =>
            { c with page := some p.page, source_page := some p.page }) =
            Chunk.chunk_id := rfl
      rw [hcomp, chunk_text_ids]
    simp only [chunk_document_pages, List.map_cons, List.flatten_cons, List.map_append]
      at ih ⊢
    rw [hpage, ih]

/-! ## Claim C2 -/

/-- C2 counterexample: for the query `cat` and a chunk with text `catalog`,
the code scores 3 (the substring test counts `cat` as an exact match and as a
partial match), while the claim's whole-word scoring yields 1 — exact
matching in the code is substring containment, not whole-word occurrence. -/
theorem C2_counterexample :
    relevance_score (strL ("cat")) (strL ("catalog")) = 3 ∧
    claimRelevanceScore (strL ("cat")) (strL ("catalog")) = 1 ∧
    relevance_score (strL ("cat")) (strL ("catalog")) ≠
      claimRelevanceScore (strL ("cat")) (strL ("catalog")) := by
  decide

/-- C2 (amended): the retriever assigns to every candidate chunk
`relevance_score = 2 * sub_matches + part_matches`, where `sub_matches` is
the number of distinct lowercase query keywords occurring as a substring of
the lowercased chunk text (each keyword counted once), and `part_matches` is
the number of distinct query keywords occurring as a substring of some
whitespace-delimited chunk word. -/
theorem C2_theorem (question : Str) (chunks : List Chunk) :
    scoredOf question chunks =
      chunks.map fun c =>
        (c, 2 * sub_matches question c.text + part_matches question c.text) := by
  simp [scoredOf, relevance_score, sub_matches, part_matches, Nat.mul_comm]

/-! ## Claim C6 -/

/-- C6: `DocumentQAService` defines no `process_document_with_progress`
method, so every run of `process_document_async` raises `AttributeError`
inside the `try` block, lands in `set_error` (the failed terminal state), and
can never reach `complete_processing` — regardless of what the call would
have returned. -/
theorem C6_theorem :
    "process_document_with_progress" ∉ documentQAServiceMethods ∧
    (∀ call_success : Bool,
      process_document_async documentQAServiceMethods call_success =
        set_error ("AttributeError: process_document_with_progress") start_processing) ∧
    (∀ call_success : Bool,
      process_document_async documentQAServiceMethods call_success ≠
        complete_processing start_processing) := by
  refine ⟨by decide, ?_, ?_⟩ <;> intro call_success <;> cases call_success <;> decide

/-! ## Claim C9 -/

/-- C9 counterexample: with `overlap_tokens = 0` and a chunk holding more
than 0 tokens, the code returns the *whole* prior chunk (Python's
`tokens[-0:]` is the entire list), not the decoded trailing 0 tokens claimed
by the "otherwise" branch. -/
theorem C9_counterexample :
    ¬ (charTok.encode (strL ("ab"))).length ≤ 0 ∧
    _get_overlap_text charTok (strL ("ab")) 0 ≠
      charTok.decode
        ((charTok.encode (strL ("ab"))).drop ((charTok.encode (strL ("ab"))).length - 0)) := by
  decide

/-- C9 (amended): in the exact-tokenizer path, when the just-closed chunk has
at most `overlap_tokens` tokens the whole chunk text is reused; otherwise,
for `overlap_tokens ≥ 1`, the overlap is exactly the decoded trailing
`overlap_tokens` tokens, while for `overlap_tokens = 0` the slice `[-0:]`
covers the full token list, so the whole chunk is decoded. -/
theorem C9_theorem {τ : Type} (tk : Tokenizer τ) (t : Str) (k : Nat) :
    ((tk.encode t).length ≤ k → _get_overlap_text tk t k = t) ∧
    (1 ≤ k → k < (tk.encode t).length →
      _get_overlap_text tk t k =
        tk.decode ((tk.encode t).drop ((tk.encode t).length - k))) ∧
    (k = 0 → 0 < (tk.encode t).length →
      _get_overlap_text tk t k = tk.decode (tk.encode t)) := by
  refine ⟨fun h => ?_, fun hk hlt => ?_, fun hk0 hpos => ?_⟩
  · simp only [_get_overlap_text]
    rw [if_pos h]
  · simp only [_get_overlap_text, pySliceLastK]
    rw [if_neg (by omega), if_neg (by omega)]
  · subst hk0
    simp only [_get_overlap_text, pySliceLastK]
    rw [if_neg (by omega)]
    simp

/-- C9 witness: a concrete instance of the amended overlap description at
`overlap_tokens = 1` on a two-token chunk. -/
theorem C9_witness :
    _get_overlap_text charTok (strL ("ab")) 1 =
      charTok.decode
        ((charTok.encode (strL ("ab"))).drop ((charTok.encode (strL ("ab"))).length - 1)) :=
  (C9_theorem charTok (strL ("ab")) 1).2.1 (by decide) (by decide)

/-! ## Claim C10 -/

/-- C10: ingestion is atomic with respect to the in-memory store — whenever
`process_document` returns `success = False` (missing file or a parsing
error), the `document_chunks` and `document_metadata` mappings are returned
unchanged; both assignments happen only on the success path, after every
failure point. -/
theorem C10_theorem {τ : Type} (tk : Tokenizer τ) (store : DocStore) (path_exists : Bool)
    (file_path file_stem file_name : Str) (parsed : Except Str (List Page))
    (file_id_arg : Option Str)
    (h : (process_document tk store path_exists file_path file_stem file_name parsed
        file_id_arg).1.success = false) :
    (process_document tk store path_exists file_path file_stem file_name parsed
        file_id_arg).2 = store := by
  cases path_exists with
  | false => simp [process_document]
  | true =>
    cases parsed with
    | error e => simp [process_document]
    | ok pages => simp [process_document] at h

/-- C10 witness: a concrete failing ingestion (missing file) leaves the empty
store unchanged. -/
theorem C10_witness :
    (process_document charTok ⟨[], []⟩ false [] [] [] (Except.error []) none).1.success =
        false ∧
      (process_document charTok ⟨[], []⟩ false [] [] [] (Except.error []) none).2 =
        ⟨[], []⟩ :=
  ⟨by decide,
    C10_theorem charTok ⟨[], []⟩ false [] [] [] (Except.error []) none (by decide)⟩

/-! ## Stability of the score sort -/

/-- Filtering one score class through `orderedInsert` either prepends the
inserted element (when it belongs to the class — every element it passes has
a strictly larger key) or leaves the filtered list unchanged. -/
theorem filter_key_orderedInsert {α : Type} (k : α → Nat) (s : Nat) (x : α) (m : List α) :
    (List.orderedInsert (fun a b => k b ≤ k a) x m).filter (fun y => k y == s) =
      if k x == s then x :: m.filter (fun y => k y == s)
      else m.filter (fun y => k y == s) := by
  induction m with
  | nil =>
    by_cases h : (k x == s) = true
    · simp [List.orderedInsert, List.filter, h]
    · have h' : (k x == s) = false := by simpa using h
      simp [List.orderedInsert, List.filter, h']
  | cons y ys ih =>
    by_cases hxy : k y ≤ k x
    · have hins : List.orderedInsert (fun a b => k b ≤ k a) x (y :: ys) = x :: y :: ys := by
        simp [List.orderedInsert, hxy]
      rw [hins, List.filter_cons]
    · have hins : List.orderedInsert (fun a b => k b ≤ k a) x (y :: ys) =
          y :: List.orderedInsert (fun a b => k b ≤ k a) x ys := by
        simp [List.orderedInsert, hxy]
      rw [hins, List.filter_cons, ih, List.filter_cons]
      by_cases h : (k x == s) = true
      · have hkx : k x = s := by simpa using h
        have hlt : k x < k y := by omega
        have hy : (k y == s) = false := by
          have : ¬ k y = s := by omega
          simpa using this
        simp [h, hy]
      · have h' : (k x == s) = false := by simpa using h
        simp [h']

/-- The stable descending sort preserves each score class verbatim: ties keep
their original relative order. -/
theorem filter_key_insertionSort {α : Type} (k : α → Nat) (s : Nat) (l : List α) :
    (List.insertionSort (fun a b => k b ≤ k a) l).filter (fun y => k y == s) =
      l.filter (fun y => k y == s) := by
  induction l with
  | nil => rfl
  | cons x xs ih =>
    simp only [List.insertionSort]
    rw [filter_key_orderedInsert]
    by_cases h : (k x == s) = true <;> simp_all [List.filter_cons]

/-- A shared concrete chunk for the retriever instances. -/
def exChunk : Chunk :=
  { file_id := 1, chunk_id := 0, text := strL ("hello"), token_count := 1 }

/-! ## Claim C3 -/

/-- C3: when none of the top `limit` chunks of the descending score ranking
has a positive score, the retriever discards the scoring and returns the
first `limit` candidates in their original order (without the score key);
with `limit ≥ 1` and a nonempty candidate list the result is nonempty. -/
theorem C3_theorem (q : Str) (fid : Option Str) (limit : Nat) (dc : ChunkDict)
    (h1 : candidatesOf dc fid ≠ [])
    (h2 : (((sortedScoredOf q (candidatesOf dc fid)).take limit).any fun sc =>
        decide (0 < sc.2)) = false) :
    _find_relevant_chunks q fid limit dc =
        ((candidatesOf dc fid).take limit).map (fun c => ⟨c, none⟩) ∧
      (1 ≤ limit → _find_relevant_chunks q fid limit dc ≠ []) := by
  have hmain : _find_relevant_chunks q fid limit dc =
      ((candidatesOf dc fid).take limit).map (fun c => ⟨c, none⟩) := by
    simp [_find_relevant_chunks, if_neg h1, h2]
  refine ⟨hmain, fun hl => ?_⟩
  rw [hmain]
  simp only [ne_eq, List.map_eq_nil_iff, List.take_eq_nil_iff]
  rintro (h | h)
  · omega
  · exact h1 h

/-- C3 witness: one stored document whose single chunk shares no keyword with
the query `zz`; the fallback returns that chunk, scoreless, and the result is
nonempty. -/
theorem C3_witness :
    candidatesOf [(strL ("d1"), [exChunk])] none ≠ [] ∧
    (((sortedScoredOf (strL ("zz")) (candidatesOf [(strL ("d1"), [exChunk])] none)).take 5).any
        fun sc => decide (0 < sc.2)) = false ∧
    (_find_relevant_chunks (strL ("zz")) none 5 [(strL ("d1"), [exChunk])] =
        ((candidatesOf [(strL ("d1"), [exChunk])] none).take 5).map (fun c => ⟨c, none⟩) ∧
      (1 ≤ 5 → _find_relevant_chunks (strL ("zz")) none 5 [(strL ("d1"), [exChunk])] ≠ [])) :=
  ⟨by decide, by decide, C3_theorem (strL ("zz")) none 5 _ (by decide) (by decide)⟩

/-! ## Claim C5 -/

/-- C5 counterexample: scoping a query to a document identifier that is *not*
in the store does not yield an empty result — the lookup falls through to all
documents' chunks, and the retriever returns a nonempty list; moreover with
`limit = 0` the result is empty even though candidates exist. Both facts
contradict "empty iff zero candidates, i.e. no documents or unknown scoped
id". -/
theorem C5_counterexample :
    dictGet [(strL ("doc1"), [exChunk])] (strL ("doc2")) = none ∧
    _find_relevant_chunks (strL ("q")) (some (strL ("doc2"))) 5
        [(strL ("doc1"), [exChunk])] ≠ [] ∧
    _find_relevant_chunks (strL ("q")) none 0 [(strL ("doc1"), [exChunk])] = [] := by
  decide

/-- C5 (amended): the retriever returns an empty sequence iff the candidate
list is empty or `limit = 0`; the candidate list is the scoped document's
chunk list when the identifier is nonempty and present, and otherwise (no
scope, empty identifier, or unknown identifier) the concatenation of all
documents' chunks — so an unknown scoped identifier falls back to searching
every document rather than producing an empty result. -/
theorem C5_theorem (q : Str) (fid : Option Str) (limit : Nat) (dc : ChunkDict) :
    _find_relevant_chunks q fid limit dc = [] ↔
      candidatesOf dc fid = [] ∨ limit = 0 := by
  by_cases hc : candidatesOf dc fid = []
  · simp [_find_relevant_chunks, hc]
  · have hlen : (sortedScoredOf q (candidatesOf dc fid)).length =
        (candidatesOf dc fid).length := by
      simp [sortedScoredOf, scoredOf]
    have hsnil : sortedScoredOf q (candidatesOf dc fid) = [] ↔
        candidatesOf dc fid = [] := by
      rw [← List.length_eq_zero, hlen, List.length_eq_zero]
    simp only [_find_relevant_chunks, if_neg hc]
    split
    · simp [List.map_eq_nil_iff, List.take_eq_nil_iff, hc]
    · simp [List.map_eq_nil_iff, List.take_eq_nil_iff, hsnil, hc]

/-! ## Claim C8 -/

/-- C8: retriever ranking is stable — restricted to any one relevance score
`s`, the returned chunks are a prefix of the scored candidates in their
original candidate order, so any two returned chunks with equal score appear
in their original relative order (on the fallback path no returned chunk
carries a score, so the restriction is empty). -/
theorem C8_theorem (q : Str) (fid : Option Str) (limit : Nat) (dc : ChunkDict) (s : Nat) :
    ((_find_relevant_chunks q fid limit dc).filter
        fun sc => sc.relevance_score == some s) <+:
      (((scoredOf q (candidatesOf dc fid)).map fun p => ScoredChunk.mk p.1 (some p.2)).filter
        fun sc => sc.relevance_score == some s) := by
  simp only [_find_relevant_chunks]
  split
  · simp
  · split
    · have hnone :
          ((((candidatesOf dc fid).take limit).map fun c =>
              (⟨c, none⟩ : ScoredChunk)).filter
            fun sc => sc.relevance_score == some s) = [] := by
        rw [List.filter_map]
        have hfalse : ((fun sc : ScoredChunk => sc.relevance_score == some s) ∘
            fun c : Chunk => (⟨c, none⟩ : ScoredChunk)) = fun _ => false := by
          funext c
          rfl
        rw [hfalse]
        simp
      rw [hnone]
      exact List.nil_prefix
    · rw [List.filter_map, List.filter_map]
      have hco : ((fun sc : ScoredChunk => sc.relevance_score == some s) ∘
          fun p : Chunk × Nat => ScoredChunk.mk p.1 (some p.2)) =
            fun p : Chunk × Nat => p.2 == s := by
        funext p
        rfl
      rw [hco]
      refine List.IsPrefix.map _ ?_
      refine ⟨(List.drop limit (sortedScoredOf q (candidatesOf dc fid))).filter
        fun p => p.2 == s, ?_⟩
      rw [← List.filter_append, List.take_append_drop]
      simpa only [sortedScoredOf] using
        filter_key_insertionSort (Prod.snd : Chunk × Nat → Nat) s
          (scoredOf q (candidatesOf dc fid))

/-! ## Claim C1 -/

/-- The buffer invariant of the sentence loop: when the buffer is nonempty
and over the limit, it is either a single input sentence or an overlap
extract joined with a single sentence, with the matching running count. -/
def chunkInv {τ : Type} (tk : Tokenizer τ) (cfg : ChunkerCfg) (S : List Str)
    (st : ChunkAcc) : Prop :=
  (st.current_chunk = [] → st.current_tokens = 0) ∧
  (st.current_chunk = [] ∨ st.current_tokens ≤ cfg.chunk_size ∨
    (∃ s ∈ S, st.current_chunk = s ∧ st.current_tokens = count_tokens tk s) ∨
    (∃ s ∈ S, ∃ prev : Str,
      st.current_chunk = _get_overlap_text tk prev cfg.chunk_overlap ++ ' ' :: s ∧
      st.current_tokens =
        count_tokens tk (_get_overlap_text tk prev cfg.chunk_overlap ++ ' ' :: s)))

/-- The per-chunk conclusion of the amended C1. -/
def chunkGood {τ : Type} (tk : Tokenizer τ) (cfg : ChunkerCfg) (S : List Str)
    (c : Chunk) : Prop :=
  c.token_count ≤ cfg.chunk_size ∨ singleSentenceChunk tk S c ∨ seededChunk tk cfg S c

/-- Closing the buffer as a chunk yields a chunk satisfying the amended C1. -/
theorem chunkInv_emit {τ : Type} (tk : Tokenizer τ) (cfg : ChunkerCfg) (S : List Str)
    (st : ChunkAcc) (fid id : Nat)
    (hinv : chunkInv tk cfg S st) (hcur : st.current_chunk ≠ []) :
    chunkGood tk cfg S
      ⟨fid, id, pyStrip st.current_chunk, st.current_tokens, none, none⟩ := by
  rcases hinv.2 with hnil | hle | ⟨s, hsS, hceq, hteq⟩ | ⟨s, hsS, prev, hceq, hteq⟩
  · exact absurd hnil hcur
  · exact Or.inl hle
  · refine Or.inr (Or.inl ⟨s, hsS, ?_, ?_⟩)
    · show pyStrip st.current_chunk = pyStrip s
      rw [hceq]
    · exact hteq
  · refine Or.inr (Or.inr ⟨s, hsS, prev, ?_, ?_⟩)
    · show pyStrip st.current_chunk =
        pyStrip (_get_overlap_text tk prev cfg.chunk_overlap ++ ' ' :: s)
      rw [hceq]
    · exact hteq

/-- One loop iteration preserves the C1 invariant. -/
theorem chunkStep_inv {τ : Type} (tk : Tokenizer τ) (cfg : ChunkerCfg) (fid : Nat)
    (S : List Str) (hne : ∀ s ∈ S, s ≠ []) (st : ChunkAcc) (s : Str) (hs : s ∈ S)
    (h : chunkInv tk cfg S st ∧ ∀ c ∈ st.chunks, chunkGood tk cfg S c) :
    chunkInv tk cfg S (chunkStep tk cfg fid st s) ∧
      ∀ c ∈ (chunkStep tk cfg fid st s).chunks, chunkGood tk cfg S c := by
  by_cases hc : cfg.chunk_size < st.current_tokens + count_tokens tk s ∧
    st.current_chunk ≠ []
  · constructor
    · refine ⟨fun hnil => ?_, ?_⟩
      · exfalso
        simp only [chunkStep, if_pos hc] at hnil
        simp at hnil
      · simp only [chunkStep, if_pos hc]
        exact Or.inr (Or.inr (Or.inr ⟨s, hs, st.current_chunk, rfl, rfl⟩))
    · intro c hcmem
      simp only [chunkStep, if_pos hc] at hcmem
      rcases List.mem_append.mp hcmem with hmem | hmem
      · exact h.2 c hmem
      · have hceq :
            c = ⟨fid, st.chunk_id, pyStrip st.current_chunk, st.current_tokens,
              none, none⟩ := by
          simpa using hmem
        rw [hceq]
        exact chunkInv_emit tk cfg S st fid st.chunk_id h.1 hc.2
  · have hstep : chunkStep tk cfg fid st s =
        { st with
          current_chunk :=
            if st.current_chunk ≠ [] then st.current_chunk ++ ' ' :: s else s,
          current_tokens := st.current_tokens + count_tokens tk s } := by
      simp only [chunkStep, if_neg hc]
    by_cases hcur : st.current_chunk = []
    · have ht0 := h.1.1 hcur
      refine ⟨⟨fun hnil => ?_, ?_⟩, fun c hcm => ?_⟩
      · rw [hstep] at hnil
        simp only [hcur] at hnil
        simp at hnil
        exact absurd hnil (hne s hs)
      · refine Or.inr (Or.inr (Or.inl ⟨s, hs, ?_, ?_⟩))
        · rw [hstep]
          show (if st.current_chunk ≠ [] then st.current_chunk ++ ' ' :: s else s) = s
          simp [hcur]
        · rw [hstep]
          show st.current_tokens + count_tokens tk s = count_tokens tk s
          rw [ht0, Nat.zero_add]
      · rw [hstep] at hcm
        exact h.2 c hcm
    · have hle : st.current_tokens + count_tokens tk s ≤ cfg.chunk_size := by
        by_contra hlt
        exact hc ⟨by omega, hcur⟩
      refine ⟨⟨fun hnil => ?_, ?_⟩, fun c hcm => ?_⟩
      · rw [hstep] at hnil
        simp only [hcur] at hnil
        simp [hcur] at hnil
      · refine Or.inr (Or.inl ?_)
        rw [hstep]
        show st.current_tokens + count_tokens tk s ≤ cfg.chunk_size
        exact hle
      · rw [hstep] at hcm
        exact h.2 c hcm

/-- C1 counterexample: with the exact character tokenizer, `chunk_size = 10`,
`chunk_overlap = 5` (a valid configuration, overlap < size), the text splits
into sentences each of at most 10 tokens, yet the second emitted chunk — an
overlap seed plus one sentence — carries 13 tokens, and its text is not one
of the sentences: the bound fails on a chunk that is not a single oversized
sentence. -/
theorem C1_counterexample :
    (⟨10, 5⟩ : ChunkerCfg).chunk_overlap < (⟨10, 5⟩ : ChunkerCfg).chunk_size ∧
    (∀ s ∈ _split_into_sentences (_clean_text (strL ("abcdefgh. abcdefg. ab"))),
      count_tokens charTok s ≤ 10) ∧
    (∃ c ∈ chunk_text charTok ⟨10, 5⟩ (strL ("abcdefgh. abcdefg. ab")) 1,
      10 < c.token_count ∧
        c.text ∉ _split_into_sentences (_clean_text (strL ("abcdefgh. abcdefg. ab")))) := by
  decide

/-- C1 (amended): for every tokenizer, every configuration with
`overlap_tokens < max_tokens` and every input text, each chunk produced by
`chunk_text` has `token_count ≤ max_tokens`, except chunks consisting of a
single sentence (with the sentence's own token count, which may exceed the
limit) and chunks consisting of an overlap seed joined with a single sentence
(with the token count of that join, which may also exceed the limit). -/
theorem C1_theorem {τ : Type} (tk : Tokenizer τ) (cfg : ChunkerCfg) (fid : Nat)
    (text : Str) (hov : cfg.chunk_overlap < cfg.chunk_size) :
    ∀ c ∈ chunk_text tk cfg text fid,
      c.token_count ≤ cfg.chunk_size ∨
        singleSentenceChunk tk (_split_into_sentences (_clean_text text)) c ∨
        seededChunk tk cfg (_split_into_sentences (_clean_text text)) c := by
  intro c hcmem
  have hne : ∀ s ∈ _split_into_sentences (_clean_text text), s ≠ [] :=
    sentences_ne_nil _
  have hfin := chunkLoop_invariant tk cfg fid
    (fun st => chunkInv tk cfg (_split_into_sentences (_clean_text text)) st ∧
      ∀ c' ∈ st.chunks, chunkGood tk cfg (_split_into_sentences (_clean_text text)) c')
    (_split_into_sentences (_clean_text text)) ⟨[], [], 0, 0⟩
    (fun st' s hs hP => chunkStep_inv tk cfg fid _ hne st' s hs hP)
    ⟨⟨fun _ => rfl, Or.inl rfl⟩, by simp⟩
  simp only [chunk_text] at hcmem
  by_cases hflush :
      pyStrip (chunkLoop tk cfg fid (_split_into_sentences (_clean_text text))
        ⟨[], [], 0, 0⟩).current_chunk ≠ []
  · rw [if_pos hflush] at hcmem
    rcases List.mem_append.mp hcmem with hmem | hmem
    · exact hfin.2 c hmem
    · have hceq : c = ⟨fid,
          (chunkLoop tk cfg fid (_split_into_sentences (_clean_text text))
            ⟨[], [], 0, 0⟩).chunk_id,
          pyStrip (chunkLoop tk cfg fid (_split_into_sentences (_clean_text text))
            ⟨[], [], 0, 0⟩).current_chunk,
          (chunkLoop tk cfg fid (_split_into_sentences (_clean_text text))
            ⟨[], [], 0, 0⟩).current_tokens, none, none⟩ := by
        simpa using hmem
      have hcur : (chunkLoop tk cfg fid (_split_into_sentences (_clean_text text))
          ⟨[], [], 0, 0⟩).current_chunk ≠ [] := by
        intro hn
        exact hflush (by rw [hn]; rfl)
      rw [hceq]
      exact chunkInv_emit tk cfg _ _ fid _ hfin.1 hcur
  · rw [if_neg hflush] at hcmem
    exact hfin.2 c hcmem

/-- C1 witness: the amended bound instantiated on a small concrete run. -/
theorem C1_witness :
    (⟨10, 5⟩ : ChunkerCfg).chunk_overlap < (⟨10, 5⟩ : ChunkerCfg).chunk_size ∧
    ∀ c ∈ chunk_text charTok ⟨10, 5⟩ (strL ("ab. cd")) 1,
      c.token_count ≤ (⟨10, 5⟩ : ChunkerCfg).chunk_size ∨
        singleSentenceChunk charTok
          (_split_into_sentences (_clean_text (strL ("ab. cd")))) c ∨
        seededChunk charTok ⟨10, 5⟩
          (_split_into_sentences (_clean_text (strL ("ab. cd")))) c :=
  ⟨by decide, C1_theorem charTok ⟨10, 5⟩ 1 (strL ("ab. cd")) (by decide)⟩

/-! ## Claim C7 -/

/-- Splitting distributes over a single-space join. -/
theorem wordsAux_append_space (a b : Str) (acc : List Char) :
    wordsAux (a ++ ' ' :: b) acc = wordsAux a acc ++ wordsAux b [] := by
  induction a generalizing acc with
  | nil =>
    by_cases h : acc = [] <;> simp [wordsAux, isPySpace, h]
  | cons c cs ih =>
    by_cases hsp : isPySpace c = true
    · by_cases h : acc = [] <;> simp [wordsAux, hsp, h, ih]
    · simp [wordsAux, hsp, ih]

/-- An all-whitespace tail contributes no word beyond the pending one. -/
theorem wordsAux_all_space (sp : Str) (hsp : ∀ c ∈ sp, isPySpace c = true)
    (acc : List Char) :
    wordsAux sp acc = if acc = [] then [] else [acc.reverse] := by
  induction sp generalizing acc with
  | nil => simp [wordsAux]
  | cons c cs ih =>
    have hc : isPySpace c = true := hsp c (by simp)
    have hcs : ∀ c' ∈ cs, isPySpace c' = true := fun c' h' => hsp c' (by simp [h'])
    by_cases h : acc = [] <;> simp [wordsAux, hc, h, ih hcs]

/-- Appending trailing whitespace does not change the word list. -/
theorem wordsAux_append_spaces (a sp : Str) (hsp : ∀ c ∈ sp, isPySpace c = true)
    (acc : List Char) :
    wordsAux (a ++ sp) acc = wordsAux a acc := by
  induction a generalizing acc with
  | nil => simp [wordsAux_all_space sp hsp, wordsAux]
  | cons c cs ih =>
    by_cases hsp' : isPySpace c = true
    · by_cases h : acc = [] <;> simp [wordsAux, hsp', h, ih]
    · simp [wordsAux, hsp', ih]

/-- Dropping leading whitespace does not change the word list. -/
theorem pyWords_dropLeadingWs (l : Str) :
    pyWords (l.dropWhile isPySpace) = pyWords l := by
  unfold pyWords
  induction l with
  | nil => rfl
  | cons c cs ih =>
    by_cases hc : isPySpace c = true
    · simpa [List.dropWhile_cons, hc, wordsAux] using ih
    · simp [List.dropWhile_cons, hc]

/-- A string is its stripped form followed by trailing whitespace. -/
theorem exists_trailing_split (l : Str) :
    ∃ sp, l = dropTrailingWs l ++ sp ∧ ∀ c ∈ sp, isPySpace c = true := by
  refine ⟨(l.reverse.takeWhile isPySpace).reverse, ?_, ?_⟩
  · conv_lhs => rw [← List.reverse_reverse l]
    rw [dropTrailingWs, ← List.reverse_append, List.takeWhile_append_dropWhile]
  · intro c hc
    rw [List.mem_reverse] at hc
    exact List.mem_takeWhile_imp hc

/-- Python splitting is invariant under stripping. -/
theorem pyWords_pyStrip (l : Str) : pyWords (pyStrip l) = pyWords l := by
  unfold pyStrip
  obtain ⟨sp, heq, hsp⟩ := exists_trailing_split (l.dropWhile isPySpace)
  have h1 : pyWords (dropTrailingWs (l.dropWhile isPySpace) ++ sp) =
      pyWords (dropTrailingWs (l.dropWhile isPySpace)) :=
    wordsAux_append_spaces _ sp hsp []
  calc pyWords (dropTrailingWs (l.dropWhile isPySpace))
      = pyWords (dropTrailingWs (l.dropWhile isPySpace) ++ sp) := h1.symm
    _ = pyWords (l.dropWhile isPySpace) := by rw [← heq]
    _ = pyWords l := pyWords_dropLeadingWs l

/-- The word tokenizer is additive over the chunker's single-space joins. -/
theorem wordTok_add (a b : Str) :
    count_tokens wordTok (a ++ ' ' :: b) =
      count_tokens wordTok a + count_tokens wordTok b := by
  show (pyWords (a ++ ' ' :: b)).length = (pyWords a).length + (pyWords b).length
  unfold pyWords
  rw [wordsAux_append_space, List.length_append]

/-- The word tokenizer is invariant under stripping. -/
theorem wordTok_strip (a : Str) :
    count_tokens wordTok (pyStrip a) = count_tokens wordTok a := by
  show (pyWords (pyStrip a)).length = (pyWords a).length
  rw [pyWords_pyStrip]

/-- C7 counterexample: with the exact character tokenizer, the chunk built
from the two sentences of `ab. cd` stores `token_count = 4` (the sum of the
per-sentence counts) while re-counting its stored text `ab cd` gives 5 — the
space introduced by the join is never counted, so the stored count is not the
tokenizer's count of `text`. -/
theorem C7_counterexample :
    ∃ c ∈ chunk_text charTok ⟨10, 5⟩ (strL ("ab. cd")) 1,
      c.token_count ≠ count_tokens charTok c.text := by
  decide

/-- C7 (amended): the stored `token_count` is the running sum of the
constituent token counts (the seed join recount plus one count per appended
sentence); it equals `count_tokens` of the stored `text` exactly when the
tokenizer is additive over the single-space joins and invariant under the
final strip — as the intended tiktoken tokenizer essentially is, but a
general exact tokenizer need not be. -/
theorem C7_theorem {τ : Type} (tk : Tokenizer τ) (cfg : ChunkerCfg) (fid : Nat)
    (text : Str)
    (hadd : ∀ a b : Str,
      count_tokens tk (a ++ ' ' :: b) = count_tokens tk a + count_tokens tk b)
    (hstrip : ∀ a : Str, count_tokens tk (pyStrip a) = count_tokens tk a) :
    ∀ c ∈ chunk_text tk cfg text fid, c.token_count = count_tokens tk c.text := by
  intro c hcmem
  have hne : ∀ s ∈ _split_into_sentences (_clean_text text), s ≠ [] :=
    sentences_ne_nil _
  have hfin := chunkLoop_invariant tk cfg fid
    (fun st =>
      (st.current_chunk = [] → st.current_tokens = 0) ∧
      (st.current_chunk ≠ [] → st.current_tokens = count_tokens tk st.current_chunk) ∧
      ∀ c' ∈ st.chunks, c'.token_count = count_tokens tk c'.text)
    (_split_into_sentences (_clean_text text)) ⟨[], [], 0, 0⟩ ?step
    ⟨fun _ => rfl, fun hnn => absurd rfl hnn, by simp⟩
  case step =>
    intro st s hs hP
    by_cases hc : cfg.chunk_size < st.current_tokens + count_tokens tk s ∧
      st.current_chunk ≠ []
    · refine ⟨fun hnil => ?_, fun _ => ?_, fun c' hcm => ?_⟩
      · exfalso
        simp only [chunkStep, if_pos hc] at hnil
        simp at hnil
      · simp only [chunkStep, if_pos hc]
      · simp only [chunkStep, if_pos hc] at hcm
        rcases List.mem_append.mp hcm with hmem | hmem
        · exact hP.2.2 c' hmem
        · have hceq : c' = ⟨fid, st.chunk_id, pyStrip st.current_chunk,
              st.current_tokens, none, none⟩ := by
            simpa using hmem
          rw [hceq]
          show st.current_tokens = count_tokens tk (pyStrip st.current_chunk)
          rw [hstrip, hP.2.1 hc.2]
    · have hstep : chunkStep tk cfg fid st s =
          { st with
            current_chunk :=
              if st.current_chunk ≠ [] then st.current_chunk ++ ' ' :: s else s,
            current_tokens := st.current_tokens + count_tokens tk s } := by
        simp only [chunkStep, if_neg hc]
      by_cases hcur : st.current_chunk = []
      · have ht0 := hP.1 hcur
        refine ⟨fun hnil => ?_, fun _ => ?_, fun c' hcm => ?_⟩
        · rw [hstep] at hnil
          simp only [hcur] at hnil
          simp at hnil
          exact absurd hnil (hne s hs)
        · rw [hstep]
          show st.current_tokens + count_tokens tk s =
            count_tokens tk (if st.current_chunk ≠ [] then st.current_chunk ++ ' ' :: s else s)
          simp [hcur, ht0]
        · rw [hstep] at hcm
          exact hP.2.2 c' hcm
      · refine ⟨fun hnil => ?_, fun _ => ?_, fun c' hcm => ?_⟩
        · rw [hstep] at hnil
          simp only [hcur] at hnil
          simp [hcur] at hnil
        · rw [hstep]
          show st.current_tokens + count_tokens tk s =
            count_tokens tk (if st.current_chunk ≠ [] then st.current_chunk ++ ' ' :: s else s)
          rw [if_pos hcur, hadd, hP.2.1 hcur]
        · rw [hstep] at hcm
          exact hP.2.2 c' hcm
  simp only [chunk_text] at hcmem
  by_cases hflush :
      pyStrip (chunkLoop tk cfg fid (_split_into_sentences (_clean_text text))
        ⟨[], [], 0, 0⟩).current_chunk ≠ []
  · rw [if_pos hflush] at hcmem
    rcases List.mem_append.mp hcmem with hmem | hmem
    · exact hfin.2.2 c hmem
    · have hceq : c = ⟨fid,
          (chunkLoop tk cfg fid (_split_into_sentences (_clean_text text))
            ⟨[], [], 0, 0⟩).chunk_id,
          pyStrip (chunkLoop tk cfg fid (_split_into_sentences (_clean_text text))
            ⟨[], [], 0, 0⟩).current_chunk,
          (chunkLoop tk cfg fid (_split_into_sentences (_clean_text text))
            ⟨[], [], 0, 0⟩).current_tokens, none, none⟩ := by
        simpa using hmem
      have hcur : (chunkLoop tk cfg fid (_split_into_sentences (_clean_text text))
          ⟨[], [], 0, 0⟩).current_chunk ≠ [] := by
        intro hn
        exact hflush (by rw [hn]; rfl)
      rw [hceq]
      show (chunkLoop tk cfg fid (_split_into_sentences (_clean_text text))
          ⟨[], [], 0, 0⟩).current_tokens =
        count_tokens tk (pyStrip (chunkLoop tk cfg fid
          (_split_into_sentences (_clean_text text)) ⟨[], [], 0, 0⟩).current_chunk)
      rw [hstrip, hfin.2.1 hcur]
  · rw [if_neg hflush] at hcmem
    exact hfin.2.2 c hcmem

/-- C7 witness: with the word tokenizer — additive over space joins and
strip-invariant — every chunk of a concrete run stores exactly the
tokenizer's count of its text. -/
theorem C7_witness :
    chunk_text wordTok ⟨10, 5⟩ (strL ("ab. cd")) 1 =
        [{ file_id := 1, chunk_id := 0, text := strL ("ab cd"), token_count := 2 }] ∧
      ∀ c ∈ chunk_text wordTok ⟨10, 5⟩ (strL ("ab. cd")) 1,
        c.token_count = count_tokens wordTok c.text :=
  ⟨by decide, C7_theorem wordTok ⟨10, 5⟩ 1 (strL ("ab. cd")) wordTok_add wordTok_strip⟩
